import Mathlib

set_option maxHeartbeats 1000000

namespace CdpEngine

/-!
Shallow embedding of the CDP engine's observability sink, serialization
codec, group/filter projector, function registry, invocation engine and
consumers.  The implementation files (`src/cdp/utils.ts`,
`src/cdp/cdp-consumers.ts`, the hog executor) are not part of the source
tree; only their tests are.  Components are therefore modelled from the
specification, anchored on the expected values recorded in the tests.
-/

/-- Modelled from the spec: a `LogEntry` of one InvocationResult's log batch —
level, message and an emission timestamp.  Timestamps are milliseconds since
the Unix epoch (the sink's tie-break unit is one millisecond).  The missing
source is `src/cdp/utils.ts` (`HogFunctionLogEntry`). -/
structure LogEntry where
  level : String
  message : String
  timestamp : Nat
  deriving Repr, DecidableEq

/-- Modelled from the spec: ordered insertion of one entry into an
already-processed suffix, comparing by original emission timestamp.  Using
`≤` places the inserted entry (which was emitted earlier) before any
later-emitted entry with an equal timestamp, which makes the sort stable. -/
def insertByTs (e : LogEntry) : List LogEntry → List LogEntry
  | [] => [e]
  | x :: xs => if e.timestamp ≤ x.timestamp then e :: x :: xs else x :: insertByTs e xs

/-- Modelled from the spec: the sink's stable sort of a log batch by original
emission timestamp (spec §4.8: "entries are first sorted by their original
emission timestamp (stable sort preserving emission order among ties)"). -/
def sortLogs : List LogEntry → List LogEntry
  | [] => []
  | x :: xs => insertByTs x (sortLogs xs)

/-- Modelled from the spec: the single pass that assigns each entry
`max(original_timestamp, previous_assigned_timestamp + 1)`, threading the
previously assigned timestamp (`none` before the first entry). -/
def fixTimestamps : Option Nat → List LogEntry → List LogEntry
  | _, [] => []
  | none, e :: es => e :: fixTimestamps (some e.timestamp) es
  | some prev, e :: es =>
      let t := max e.timestamp (prev + 1)
      { e with timestamp := t } :: fixTimestamps (some t) es

/-- Modelled from the spec: the sink's full timestamp-assignment algorithm —
stable sort by emission timestamp, then the single assignment pass. -/
def assignTimestamps (logs : List LogEntry) : List LogEntry :=
  fixTimestamps none (sortLogs logs)

/-- Decimal digit list of a natural number, most significant first.  The
first argument is structural fuel; `n + 1` units always suffice. -/
def decimalDigitsAux : Nat → Nat → List Nat
  | 0, _ => []
  | fuel + 1, n => if n < 10 then [n] else decimalDigitsAux fuel (n / 10) ++ [n % 10]

/-- Decimal digit list of a natural number, most significant first. -/
def decimalDigits (n : Nat) : List Nat := decimalDigitsAux (n + 1) n

/-- The ASCII digit character for a digit value. -/
def digitChar (d : Nat) : Char := Char.ofNat (48 + d)

/-- Decimal rendering of a natural number (the model's `toString`). -/
def toDecimal (n : Nat) : String := String.mk ((decimalDigits n).map digitChar)

/-- Value of a most-significant-first decimal digit list. -/
def fromDigits (ds : List Nat) : Nat := ds.foldl (fun acc d => acc * 10 + d) 0

/-- Decimal rendering of `n` left-padded with zeros to width `w`. -/
def zeroPad (w : Nat) (n : Nat) : String :=
  String.mk (List.replicate (w - (decimalDigits n).length) '0') ++ toDecimal n

/-- Conversion of a day count since 1970-01-01 to a civil `(year, month, day)`
date (the standard era/day-of-era algorithm, valid for all days ≥ 0). -/
def civilFromDays (z : Nat) : Nat × Nat × Nat :=
  let zd := z + 719468
  let era := zd / 146097
  let doe := zd % 146097
  let yoe := (doe - doe / 1460 + doe / 36524 - doe / 146097) / 365
  let doy := doe - (365 * yoe + yoe / 4 - yoe / 100)
  let mp := (5 * doy + 2) / 153
  let d := doy - (153 * mp + 2) / 5 + 1
  let m := if mp < 10 then mp + 3 else mp - 9
  (yoe + era * 400 + (if m ≤ 2 then 1 else 0), m, d)

/-- Modelled from the spec: serialization of an assigned timestamp
(milliseconds since the Unix epoch) as the ClickHouse-style datetime string
`YYYY-MM-DD hh:mm:ss.mmm` used by `prepareLogEntriesForClickhouse` in the
missing `src/cdp/utils.ts` (test snapshot: `2021-05-03 00:00:00.000`). -/
def formatClickhouseTimestamp (ms : Nat) : String :=
  let secs := ms / 1000
  let days := secs / 86400
  let sod := secs % 86400
  let c := civilFromDays days
  zeroPad 4 c.1 ++ "-" ++ zeroPad 2 c.2.1 ++ "-" ++ zeroPad 2 c.2.2 ++ " " ++
    zeroPad 2 (sod / 3600) ++ ":" ++ zeroPad 2 (sod % 3600 / 60) ++ ":" ++
    zeroPad 2 (sod % 60) ++ "." ++ zeroPad 3 (ms % 1000)

/-- Modelled from the spec: JSON-representable values, the payloads of the
Serialization Codec and of event/person/group `properties`. -/
inductive Json where
  | null
  | bool (b : Bool)
  | num (n : Int)
  | str (s : String)
  | arr (elems : List Json)
  | obj (fields : List (String × Json))

/-- Modelled from the spec: one group record of `InvocationGlobals.groups` —
id/key, type, positional index, properties (and the context URL carried by
the upstream context). -/
structure Group where
  id : String
  type : String
  index : Nat
  properties : List (String × Json)
  url : String

/-- Modelled from the spec: project identity of the execution context. -/
structure Project where
  id : Nat
  name : String
  url : String

/-- Modelled from the spec: the event part of the execution context. -/
structure EventGlobals where
  uuid : String
  name : String
  properties : List (String × Json)
  timestamp : String
  url : String

/-- Modelled from the spec: the person part of the execution context. -/
structure PersonGlobals where
  id : String
  properties : List (String × Json)
  name : String
  url : String

/-- Modelled from the spec: `InvocationGlobals`, the projected execution
context — project, event, person and a mapping group type name → group
record (an association list keyed by type name). -/
structure HogFunctionInvocationGlobals where
  project : Project
  event : EventGlobals
  person : Option PersonGlobals
  groups : List (String × Group)

/-- A value stored in one field of a projected filter record. -/
inductive GVal where
  | str (s : String)
  | num (n : Nat)
  | props (ps : List (String × Json))

/-- Modelled from the spec: the flat record the projector builds for one
group — exactly the fields `key` (the group's id), `index` and
`properties`; the group's `type` and `url` are not carried over. -/
def projectGroup (g : Group) : List (String × GVal) :=
  [("key", GVal.str g.id), ("index", GVal.num g.index), ("properties", GVal.props g.properties)]

/-- The positional key `group_<index>` of a projected group. -/
def posKey (i : Nat) : String := "group_" ++ toDecimal i

/-- Modelled from the spec: the key table of the projected record.  Each
group contributes its positional key `group_<index>` and an alias entry
under its type name, both bound to the same record slot `i` (identity, not
a copy — the JS code stores the same object reference under both keys). -/
def buildGroupTable : Nat → List (String × Group) → List (String × Nat)
  | _, [] => []
  | i, (tn, g) :: rest => (posKey g.index, i) :: (tn, i) :: buildGroupTable (i + 1) rest

/-- Modelled from the spec: the flat, filter-evaluable record produced by
`convertToHogFunctionFilterGlobal`.  Group records live in `groupStore`;
`groupTable` maps record keys to store slots, so two keys bound to the same
slot denote the very same record. -/
structure HogFunctionFilterGlobals where
  eventName : String
  eventProperties : List (String × Json)
  groupStore : List (List (String × GVal))
  groupTable : List (String × Nat)

/-- Modelled from the spec: the Group/Filter Projector
(`convertToHogFunctionFilterGlobal` of the missing `src/cdp/utils.ts`).
Maps each present group independently to `{key, index, properties}`,
reachable under both `group_<index>` and the group's type name. -/
def convertToHogFunctionFilterGlobal (g : HogFunctionInvocationGlobals) : HogFunctionFilterGlobals :=
  { eventName := g.event.name
    eventProperties := g.event.properties
    groupStore := g.groups.map (fun p => projectGroup p.2)
    groupTable := buildGroupTable 0 g.groups }

/-- Field access on the projected record: resolve a key through the table,
then read the record slot. -/
def lookupGroup (fg : HogFunctionFilterGlobals) (k : String) : Option (List (String × GVal)) :=
  (fg.groupTable.lookup k).bind (fun i => fg.groupStore[i]?)

/-- Modelled from the spec: the external-call request a suspended function
carries (method, url, headers, body, timeout). -/
structure FetchRequest where
  method : String
  url : String
  headers : List (String × String)
  body : String
  timeoutMs : Nat
  deriving Repr, DecidableEq

/-- Modelled from the spec: the response handed back to a resumed
invocation (status and body). -/
structure FetchResponse where
  status : Nat
  body : String
  deriving Repr, DecidableEq

/-- Modelled from the spec (§9): function logic as a closed
tagged-instruction program — it can emit a log line or request an external
fetch call. -/
inductive Op where
  | log (message : String)
  | fetch (request : FetchRequest)
  deriving Repr, DecidableEq

/-- Modelled from the spec: a compiled filter predicate — a pure boolean
expression over the projected record; an unresolvable property reference
evaluates to no-match. -/
inductive HogFilter where
  | matchAll
  | eventNameIs (name : String)
  | groupPropIs (groupKey field value : String)
  deriving Repr, DecidableEq

/-- Modelled from the spec: pure filter evaluation over the projected
record; every unresolvable reference fails closed (no match). -/
def evalFilter : HogFilter → HogFunctionFilterGlobals → Bool
  | .matchAll, _ => true
  | .eventNameIs n, fg => fg.eventName == n
  | .groupPropIs gk f v, fg =>
      match lookupGroup fg gk with
      | none => false
      | some r =>
          match r.lookup "properties" with
          | some (GVal.props ps) =>
              match ps.lookup f with
              | some (Json.str s) => s == v
              | _ => false
          | _ => false

/-- Modelled from the spec: a `FunctionDefinition` — identity, owning
tenant, filter expression and executable logic; immutable once loaded. -/
structure HogFunctionType where
  id : String
  teamId : Nat
  name : String
  enabled : Bool
  filter : HogFilter
  program : List Op

/-- Modelled from the spec: the authoritative external configuration store
owning the function definitions. -/
structure ConfigStore where
  functions : List HogFunctionType

/-- Modelled from the spec: the Function Registry — the in-memory cache of
enabled function definitions (`hogFunctionManager`). -/
structure HogFunctionManager where
  snapshot : List HogFunctionType

/-- Modelled from the spec: the externally-triggered reload.  Fetches the
authoritative set of enabled functions from the configuration store and
atomically swaps the in-memory snapshot, discarding the previous one. -/
def reloadAllHogFunctions (store : ConfigStore) (_mgr : HogFunctionManager) : HogFunctionManager :=
  ⟨store.functions.filter (fun f => f.enabled)⟩

/-- Modelled from the spec: `Registry.match` — the functions of the tenant
whose filter predicate evaluates true against the projected record. -/
def matchFunctions (mgr : HogFunctionManager) (teamId : Nat) (fg : HogFunctionFilterGlobals) :
    List HogFunctionType :=
  mgr.snapshot.filter (fun f => f.teamId == teamId && evalFilter f.filter fg)

/-- Modelled from the spec: the execution state of an invocation — a fresh
program start, or a resumed continuation carrying the prior external-call
result. -/
inductive ExecState where
  | fresh (prog : List Op)
  | resumed (prog : List Op) (response : FetchResponse)

/-- Modelled from the spec: an `Invocation` — identity (tenant, function id,
invocation id), the globals it runs against and its current execution
state. -/
structure Invocation where
  id : String
  teamId : Nat
  functionId : String
  globals : HogFunctionInvocationGlobals
  state : ExecState

/-- Modelled from the spec: a structured metric record of the metrics
topic. -/
structure AppMetric where
  team_id : Nat
  app_source : String
  app_source_id : String
  metric_kind : String
  metric_name : String
  count : Nat
  deriving Repr, DecidableEq

/-- Modelled from the spec: an `InvocationResult` — the outcome of one
execution step: whether finished, the ordered log batch, the accumulated
metrics and, if suspended, the continuation plus pending call request. -/
structure InvocationResult where
  invocation : Invocation
  finished : Bool
  logs : List LogEntry
  metrics : List AppMetric
  suspended : Option (FetchRequest × List Op)

/-- The log line emitted when the engine suspends on a fetch request. -/
def suspensionMessage (req : FetchRequest) : String :=
  "Suspending function due to async function call fetch. URL: " ++ req.url

/-- The log line echoing the external-call result on resume. -/
def fetchResponseMessage (resp : FetchResponse) : String :=
  "Fetch response:, \x7b\"status\":" ++ toDecimal resp.status ++ ",\"body\":" ++ resp.body ++ "\x7d"

/-- The program left to execute in the invocation's current state. -/
def progOf (inv : Invocation) : List Op :=
  match inv.state with
  | .fresh p => p
  | .resumed p _ => p

/-- The log lines a step opens with: `Executing function` on a fresh start,
`Resuming function` plus the echoed fetch response on a resume. -/
def startLogsOf (inv : Invocation) : List String :=
  match inv.state with
  | .fresh _ => ["Executing function"]
  | .resumed _ resp => ["Resuming function", fetchResponseMessage resp]

/-- Modelled from the spec: synchronous execution of the program until it
ends or requests an external call; returns the accumulated log lines and,
on a fetch request, the pending request with the remaining program (the
continuation). -/
def runOps : List Op → List String → List String × Option (FetchRequest × List Op)
  | [], acc => (acc, none)
  | .log m :: rest, acc => runOps rest (acc ++ [m])
  | .fetch req :: rest, acc => (acc ++ [suspensionMessage req], some (req, rest))

/-- The single success metric recorded when an invocation finishes. -/
def succeededMetric (inv : Invocation) : AppMetric :=
  { team_id := inv.teamId, app_source := "hog_function", app_source_id := inv.functionId,
    metric_kind := "success", metric_name := "succeeded", count := 1 }

/-- Log lines stamped with the wall-clock instant `now` at which the step
ran (collisions are resolved later by the Observability Sink). -/
def stamp (now : Nat) (msgs : List String) : List LogEntry :=
  msgs.map (fun m => ⟨"info", m, now⟩)

/-- Modelled from the spec: `Invocation Engine.step` — executes the
function's logic from its current continuation against the globals, until
Finished (final logs plus the success metric) or Suspended (the serialized
continuation and the call request; the engine does not perform the call).
`now` is the wall clock used to stamp the emitted log entries. -/
def step (inv : Invocation) (now : Nat) : InvocationResult :=
  let r := runOps (progOf inv) (startLogsOf inv)
  match r.2 with
  | some (req, rest) =>
      { invocation := inv, finished := false, logs := stamp now r.1,
        metrics := [], suspended := some (req, rest) }
  | none =>
      { invocation := inv, finished := true,
        logs := stamp now (r.1 ++ ["Function completed"]),
        metrics := [succeededMetric inv], suspended := none }

/-- Modelled from the spec: re-entry of a suspended invocation — the
decoded continuation plus the Fetch Executor's result become the new
execution state. -/
def resumeInvocation (inv : Invocation) (cont : List Op) (resp : FetchResponse) : Invocation :=
  { inv with state := .resumed cont resp }

/-- Modelled from the spec: a fresh `Invocation` of one function selected
to run against one event. -/
def createInvocation (f : HogFunctionType) (g : HogFunctionInvocationGlobals) : Invocation :=
  { id := f.id ++ ":" ++ g.event.uuid, teamId := f.teamId, functionId := f.id,
    globals := g, state := .fresh f.program }

/-- Big-step execution relation of `runOps`, used to state determinism of
the engine as a property of the execution relation rather than of one
particular interpreter run. -/
inductive RunRel : List Op → List String → List String × Option (FetchRequest × List Op) → Prop
  | nil (acc : List String) : RunRel [] acc (acc, none)
  | log (m : String) (rest : List Op) (acc : List String) (out) :
      RunRel rest (acc ++ [m]) out → RunRel (Op.log m :: rest) acc out
  | fetch (req : FetchRequest) (rest : List Op) (acc : List String) :
      RunRel (Op.fetch req :: rest) acc (acc ++ [suspensionMessage req], some (req, rest))

/-- Big-step relation of one engine step: either the program suspends on a
fetch request or it runs to completion. -/
inductive StepRel : Invocation → Nat → InvocationResult → Prop
  | suspend (inv : Invocation) (now : Nat) (logs : List String)
      (req : FetchRequest) (rest : List Op) :
      RunRel (progOf inv) (startLogsOf inv) (logs, some (req, rest)) →
      StepRel inv now
        { invocation := inv, finished := false, logs := stamp now logs,
          metrics := [], suspended := some (req, rest) }
  | finish (inv : Invocation) (now : Nat) (logs : List String) :
      RunRel (progOf inv) (startLogsOf inv) (logs, none) →
      StepRel inv now
        { invocation := inv, finished := true,
          logs := stamp now (logs ++ ["Function completed"]),
          metrics := [succeededMetric inv], suspended := none }

/-- Modelled from the spec: a message of the continuation queue. -/
structure QueueMessage where
  invocation_id : String
  tenant_id : Nat
  function_id : String
  serialized_continuation : List Op
  pending_call_request : Option FetchRequest

/-- Candidate resolution for one event: one fresh invocation per function
matched by the registry for the event's tenant. -/
def processEvent (mgr : HogFunctionManager) (g : HogFunctionInvocationGlobals) : List Invocation :=
  (matchFunctions mgr g.project.id (convertToHogFunctionFilterGlobal g)).map
    (fun f => createInvocation f g)

/-- Modelled from the spec: `CdpProcessedEventsConsumer.processBatch` — for
each event resolve the matching functions, create a fresh invocation per
match and step it once; finished results go to the sink, suspended results
are published to the continuation queue.  Returns the invocations created
in this batch, not their final outcomes. -/
def processBatch (mgr : HogFunctionManager) (now : Nat)
    (events : List HogFunctionInvocationGlobals) :
    List Invocation × List InvocationResult × List QueueMessage :=
  let invs := events.flatMap (fun g => processEvent mgr g)
  let results := invs.map (fun i => step i now)
  (invs,
   results.filter (fun r => r.finished),
   (results.filter (fun r => !r.finished)).map (fun r =>
      { invocation_id := r.invocation.id, tenant_id := r.invocation.teamId,
        function_id := r.invocation.functionId,
        serialized_continuation := (r.suspended.map Prod.snd).getD [],
        pending_call_request := r.suspended.map Prod.fst }))

/-- Modelled from the spec: a prepared log-sink record
`{team_id, log_source, log_source_id, instance_id, level, message, timestamp}`
with the timestamp already serialized for ClickHouse. -/
structure LogEntrySerialized where
  team_id : Nat
  log_source : String
  log_source_id : String
  instance_id : String
  level : String
  message : String
  timestamp : String
  deriving Repr, DecidableEq

/-- Modelled from the spec: `prepareLogEntriesForClickhouse` of the missing
`src/cdp/utils.ts` — assigns monotonic timestamps to the result's log batch
and serializes each entry as a ClickHouse log record. -/
def prepareLogEntriesForClickhouse (r : InvocationResult) : List LogEntrySerialized :=
  (assignTimestamps r.logs).map (fun e =>
    { team_id := r.invocation.teamId, log_source := "hog_function",
      log_source_id := r.invocation.functionId, instance_id := r.invocation.id,
      level := e.level, message := e.message,
      timestamp := formatClickhouseTimestamp e.timestamp })

/-- Length-prefixed symbol encoding of a string (one symbol per character
codepoint). -/
def encodeStr (s : String) : List Nat :=
  s.data.length :: s.data.map Char.toNat

/-- Sign-tagged encoding of an integer. -/
def encodeInt : Int → List Nat
  | .ofNat n => [0, n]
  | .negSucc n => [1, n]

mutual

/-- Modelled from the spec: the Serialization Codec's value encoding — a
tagged, length-prefixed symbol stream over JSON-representable values (the
compression itself of the missing `gzipObject` is content-neutral, so the
model keeps the byte stream symbolic). -/
def encodeJson : Json → List Nat
  | .null => [0]
  | .bool false => [1]
  | .bool true => [2]
  | .num i => 3 :: encodeInt i
  | .str s => 4 :: encodeStr s
  | .arr xs => 5 :: xs.length :: encodeJsonList xs
  | .obj kvs => 6 :: kvs.length :: encodeJsonObj kvs

/-- Concatenated encodings of the elements of an array. -/
def encodeJsonList : List Json → List Nat
  | [] => []
  | x :: xs => encodeJson x ++ encodeJsonList xs

/-- Concatenated key/value encodings of the fields of an object. -/
def encodeJsonObj : List (String × Json) → List Nat
  | [] => []
  | kv :: rest => encodeStr kv.1 ++ encodeJson kv.2 ++ encodeJsonObj rest

end

/-- Decoder for a length-prefixed string; fails on a truncated stream. -/
def decodeStr (bytes : List Nat) : Option (String × List Nat) :=
  match bytes with
  | [] => none
  | n :: rest =>
      if n ≤ rest.length then
        some (String.mk ((rest.take n).map Char.ofNat), rest.drop n)
      else none

/-- Decoder for a sign-tagged integer. -/
def decodeInt : List Nat → Option (Int × List Nat)
  | 0 :: n :: rest => some (Int.ofNat n, rest)
  | 1 :: n :: rest => some (Int.negSucc n, rest)
  | _ => none

mutual

/-- Modelled from the spec: the Serialization Codec's value decoder.  The
first argument is structural fuel; any fuel at least the length of the
valid portion of the stream suffices. -/
def decodeJson : Nat → List Nat → Option (Json × List Nat)
  | 0, _ => none
  | _ + 1, 0 :: rest => some (.null, rest)
  | _ + 1, 1 :: rest => some (.bool false, rest)
  | _ + 1, 2 :: rest => some (.bool true, rest)
  | _ + 1, 3 :: rest => (decodeInt rest).map (fun p => (.num p.1, p.2))
  | _ + 1, 4 :: rest => (decodeStr rest).map (fun p => (.str p.1, p.2))
  | fuel + 1, 5 :: n :: rest => (decodeJsonList fuel n rest).map (fun p => (.arr p.1, p.2))
  | fuel + 1, 6 :: n :: rest => (decodeJsonObj fuel n rest).map (fun p => (.obj p.1, p.2))
  | _ + 1, _ => none
termination_by fuel _ => (fuel, 0)

/-- Decoder for `n` consecutive array elements. -/
def decodeJsonList : Nat → Nat → List Nat → Option (List Json × List Nat)
  | _, 0, rest => some ([], rest)
  | fuel, n + 1, rest =>
      match decodeJson fuel rest with
      | none => none
      | some (v, rest1) =>
          match decodeJsonList fuel n rest1 with
          | none => none
          | some (vs, rest2) => some (v :: vs, rest2)
termination_by fuel n _ => (fuel, n + 1)

/-- Decoder for `n` consecutive object fields. -/
def decodeJsonObj : Nat → Nat → List Nat → Option (List (String × Json) × List Nat)
  | _, 0, rest => some ([], rest)
  | fuel, n + 1, rest =>
      match decodeStr rest with
      | none => none
      | some (k, rest1) =>
          match decodeJson fuel rest1 with
          | none => none
          | some (v, rest2) =>
              match decodeJsonObj fuel n rest2 with
              | none => none
              | some (kvs, rest3) => some ((k, v) :: kvs, rest3)
termination_by fuel n _ => (fuel, n + 1)

end

/-- Modelled from the spec: `gzipObject` of the missing `src/cdp/utils.ts` —
`compress(value) -> bytes`.  The two leading symbols model the gzip frame
header; the payload is the codec's value encoding. -/
def gzipObject (v : Json) : List Nat := 31 :: 139 :: encodeJson v

/-- Modelled from the spec: `unGzipObject` of the missing
`src/cdp/utils.ts` — `decompress(bytes) -> value`, failing (`none`, the
DecodeError) unless the input is a validly-framed payload that decodes to
exactly one value. -/
def unGzipObject (bytes : List Nat) : Option Json :=
  match bytes with
  | 31 :: 139 :: rest =>
      match decodeJson (rest.length + 1) rest with
      | some (v, []) => some v
      | _ => none
  | _ => none

/-- The event of the end-to-end test (`cdp-e2e.test.ts`): a `$pageview`
with current-url and lib-version properties. -/
def exampleEvent : EventGlobals :=
  { uuid := "b3a1fe86-b10c-43cc-acaf-d208977608d0", name := "$pageview",
    properties := [("$current_url", Json.str "https://posthog.com"),
                   ("$lib_version", Json.str "1.0.0")],
    timestamp := "2024-06-07T12:00:00.000Z", url := "http://localhost:8000/events/1" }

/-- Execution globals of the end-to-end test: team 2, the example event,
no person and no groups. -/
def exampleGlobals : HogFunctionInvocationGlobals :=
  { project := { id := 2, name := "test project", url := "http://localhost:8000/project/2" },
    event := exampleEvent, person := none, groups := [] }

/-- The single external call issued by the simple-fetch function. -/
def simpleFetchRequest : FetchRequest :=
  { method := "POST", url := "https://example.com/posthog-webhook",
    headers := [("version", "v=1.0.0")],
    body := "\x7b\"event\":\"$pageview\"\x7d", timeoutMs := 10000 }

/-- The simple-fetch function of the end-to-end test: enabled, no filters,
logic that issues exactly one external fetch call. -/
def fnFetchNoFilters : HogFunctionType :=
  { id := "fn-fetch-no-filters", teamId := 2, name := "Test hog function",
    enabled := true, filter := .matchAll, program := [Op.fetch simpleFetchRequest] }

/-- The mocked 200 response of the end-to-end test's fetch mock. -/
def mockFetchResponse : FetchResponse :=
  { status := 200, body := "\x7b\"success\":true\x7d" }

/-- The log batch of the `prepareLogEntriesForClickhouse` test: four
entries emitted in the order third, first, second, duplicate, with
`startTime = 1620000000000` ms. -/
def exampleLogResult : InvocationResult :=
  { invocation :=
      { id := "inv-1", teamId := 1, functionId := "hog-1",
        globals := exampleGlobals, state := .fresh [] },
    finished := false,
    logs :=
      [⟨"info", "Third log message", 1620000000002⟩,
       ⟨"info", "First log message", 1620000000000⟩,
       ⟨"info", "Second log message", 1620000000001⟩,
       ⟨"info", "Duplicate log message", 1620000000002⟩],
    metrics := [], suspended := none }

/-- The organization group of the projector test (`Utils` test suite):
id `org_123`, index 0, property `name = Acme Corp`. -/
def orgGroup : Group :=
  { id := "org_123", type := "organization", index := 0,
    properties := [("name", Json.str "Acme Corp")], url := "http://example.com/org" }

/-- The project group of the projector test: id `proj_456`, index 1,
property `name = Project X`. -/
def projGroup : Group :=
  { id := "proj_456", type := "project", index := 1,
    properties := [("name", Json.str "Project X")], url := "http://example.com/project" }

/-- The globals of the projector test: organization and project groups. -/
def exampleGroupGlobals : HogFunctionInvocationGlobals :=
  { project := { id := 1, name := "Test Project", url := "http://example.com" },
    event :=
      { uuid := "event_uuid", name := "test_event", properties := [],
        timestamp := "2024-06-07T12:00:00.000Z", url := "http://example.com/event" },
    person := some
      { id := "person_123", properties := [], name := "Test User",
        url := "http://example.com/person" },
    groups := [("organization", orgGroup), ("project", projGroup)] }

/-- A group whose type name is literally `group_1` although its positional
index is 0 — the alias key then collides with the positional key space. -/
def aliasCollisionGroup : Group :=
  { id := "org_123", type := "group_1", index := 0, properties := [], url := "" }

/-- Globals containing only `aliasCollisionGroup`, keyed by its type name. -/
def aliasCollisionGlobals : HogFunctionInvocationGlobals :=
  { project := { id := 1, name := "p", url := "u" },
    event := { uuid := "u1", name := "e", properties := [], timestamp := "t", url := "u" },
    person := none,
    groups := [("group_1", aliasCollisionGroup)] }

/-- A group with non-contiguous positional index 3. -/
def sparseGroupA : Group :=
  { id := "a", type := "orgtype", index := 3, properties := [], url := "" }

/-- A group with non-contiguous positional index 7. -/
def sparseGroupB : Group :=
  { id := "b", type := "projtype", index := 7, properties := [], url := "" }

/-- Globals whose group indices (3 and 7) are neither contiguous nor
starting at 0. -/
def sparseGroupGlobals : HogFunctionInvocationGlobals :=
  { project := { id := 1, name := "p", url := "u" },
    event := { uuid := "u2", name := "e", properties := [], timestamp := "t", url := "u" },
    person := none,
    groups := [("orgtype", sparseGroupA), ("projtype", sparseGroupB)] }

theorem fixTimestamps_chain (l : List LogEntry) (p : Nat) :
    List.Chain (· < ·) p ((fixTimestamps (some p) l).map LogEntry.timestamp) := by
  induction l generalizing p with
  | nil => simp [fixTimestamps]
  | cons e es ih =>
      simp only [fixTimestamps, List.map_cons]
      exact List.Chain.cons (by omega) (ih (max e.timestamp (p + 1)))

theorem assignTimestamps_strict_chain (logs : List LogEntry) :
    ((assignTimestamps logs).map LogEntry.timestamp).Chain' (· < ·) := by
  unfold assignTimestamps
  cases h : sortLogs logs with
  | nil => simp [fixTimestamps]
  | cons e es =>
      simp only [fixTimestamps, List.map_cons]
      exact fixTimestamps_chain es e.timestamp

theorem filter_insertByTs (e : LogEntry) (l : List LogEntry) (t : Nat) :
    (insertByTs e l).filter (fun x => x.timestamp == t) =
      if e.timestamp = t then e :: l.filter (fun x => x.timestamp == t)
      else l.filter (fun x => x.timestamp == t) := by
  induction l with
  | nil => by_cases h : e.timestamp = t <;> simp [insertByTs, h]
  | cons x xs ih =>
      by_cases hle : e.timestamp ≤ x.timestamp
      · have hstep : insertByTs e (x :: xs) = e :: x :: xs := by
          simp only [insertByTs, if_pos hle]
        rw [hstep]
        by_cases h : e.timestamp = t <;> simp [List.filter_cons, h]
      · have hstep : insertByTs e (x :: xs) = x :: insertByTs e xs := by
          simp only [insertByTs, if_neg hle]
        rw [hstep]
        by_cases hx : x.timestamp = t
        · have het : e.timestamp ≠ t := by omega
          simp [List.filter_cons, hx, het, ih]
        · by_cases h : e.timestamp = t <;> simp [List.filter_cons, hx, h, ih]

theorem sortLogs_stable (logs : List LogEntry) (t : Nat) :
    (sortLogs logs).filter (fun x => x.timestamp == t) =
      logs.filter (fun x => x.timestamp == t) := by
  induction logs with
  | nil => rfl
  | cons x xs ih =>
      by_cases h : x.timestamp = t <;>
        simp [sortLogs, filter_insertByTs, h, ih]

theorem fixTimestamps_map_message (l : List LogEntry) (p : Option Nat) :
    (fixTimestamps p l).map LogEntry.message = l.map LogEntry.message := by
  induction l generalizing p with
  | nil => cases p <;> rfl
  | cons e es ih => cases p <;> simp [fixTimestamps, ih]

/-- C1: the Observability Sink first stably sorts a log batch by original
emission timestamp, then in one pass assigns each entry
`max(original, previous_assigned + 1)`:  assigned timestamps are strictly
increasing (hence collision-free), the sort is stable (entries with equal
original timestamps keep their emission order), the assignment pass keeps the
entries' messages in place, and on the batch emitted in order with original
timestamps `[T+2, T, T+1, T+2]` the assigned timestamps are
`[T, T+1, T+2, T+3]`. -/
theorem C1_log_timestamp_assignment :
    (∀ logs : List LogEntry,
      ((assignTimestamps logs).map LogEntry.timestamp).Chain' (· < ·)) ∧
    (∀ logs : List LogEntry, ∀ t : Nat,
      (sortLogs logs).filter (fun x => x.timestamp == t) =
        logs.filter (fun x => x.timestamp == t)) ∧
    (∀ logs : List LogEntry,
      (assignTimestamps logs).map LogEntry.message =
        (sortLogs logs).map LogEntry.message) ∧
    (∀ T : Nat,
      assignTimestamps
        [⟨"info", "Third log message", T + 2⟩, ⟨"info", "First log message", T⟩,
         ⟨"info", "Second log message", T + 1⟩, ⟨"info", "Duplicate log message", T + 2⟩] =
        [⟨"info", "First log message", T⟩, ⟨"info", "Second log message", T + 1⟩,
         ⟨"info", "Third log message", T + 2⟩, ⟨"info", "Duplicate log message", T + 3⟩]) := by
  refine ⟨assignTimestamps_strict_chain, sortLogs_stable,
    fun logs => fixTimestamps_map_message _ _, fun T => ?_⟩
  have h1 : ¬ (T + 2 ≤ T) := by omega
  have h2 : ¬ (T + 2 ≤ T + 1) := by omega
  have h3 : T ≤ T + 1 := by omega
  have h4 : T + 1 ≤ T + 2 := by omega
  have h5 : T + 2 ≤ T + 2 := by omega
  simp only [assignTimestamps, sortLogs, insertByTs, fixTimestamps,
    if_pos h3, if_pos h4, if_pos h5, if_neg h1, if_neg h2]
  simp only [List.cons.injEq, LogEntry.mk.injEq, true_and, and_true]
  omega

/-- C2: for the function whose logic issues exactly one external fetch call,
with the mocked 200 response, the first step returns Suspended (no metrics
yet), the single resume step returns Finished with exactly one success
metric, and the combined log messages are, in order: `Executing function`,
the suspension message, `Resuming function`, the `Fetch response: ...`
message, and the `Function completed` message. -/
theorem C2_single_fetch_suspend_resume :
    (step (createInvocation fnFetchNoFilters exampleGlobals) 100).finished = false ∧
    (step (createInvocation fnFetchNoFilters exampleGlobals) 100).suspended =
      some (simpleFetchRequest, []) ∧
    (step (createInvocation fnFetchNoFilters exampleGlobals) 100).metrics = [] ∧
    (step (resumeInvocation (createInvocation fnFetchNoFilters exampleGlobals)
        (((step (createInvocation fnFetchNoFilters exampleGlobals) 100).suspended.map
          Prod.snd).getD []) mockFetchResponse) 101).finished = true ∧
    (step (resumeInvocation (createInvocation fnFetchNoFilters exampleGlobals)
        (((step (createInvocation fnFetchNoFilters exampleGlobals) 100).suspended.map
          Prod.snd).getD []) mockFetchResponse) 101).suspended = none ∧
    (step (resumeInvocation (createInvocation fnFetchNoFilters exampleGlobals)
        (((step (createInvocation fnFetchNoFilters exampleGlobals) 100).suspended.map
          Prod.snd).getD []) mockFetchResponse) 101).metrics =
      [{ team_id := 2, app_source := "hog_function", app_source_id := "fn-fetch-no-filters",
         metric_kind := "success", metric_name := "succeeded", count := 1 }] ∧
    ((step (createInvocation fnFetchNoFilters exampleGlobals) 100).logs ++
      (step (resumeInvocation (createInvocation fnFetchNoFilters exampleGlobals)
        (((step (createInvocation fnFetchNoFilters exampleGlobals) 100).suspended.map
          Prod.snd).getD []) mockFetchResponse) 101).logs).map LogEntry.message =
      ["Executing function",
       "Suspending function due to async function call fetch. URL: https://example.com/posthog-webhook",
       "Resuming function",
       "Fetch response:, \x7b\"status\":200,\"body\":\x7b\"success\":true\x7d\x7d",
       "Function completed"] :=
  ⟨rfl, rfl, rfl, rfl, rfl, rfl, rfl⟩

/-- C8: the configuration reload trigger is idempotent — reloading twice
from the same store leaves the registry snapshot, and hence the set of
functions returned by `matchFunctions`, identical to reloading once. -/
theorem C8_reload_idempotent :
    ∀ (store : ConfigStore) (mgr : HogFunctionManager) (teamId : Nat)
      (fg : HogFunctionFilterGlobals),
      reloadAllHogFunctions store (reloadAllHogFunctions store mgr) =
        reloadAllHogFunctions store mgr ∧
      matchFunctions (reloadAllHogFunctions store (reloadAllHogFunctions store mgr)) teamId fg =
        matchFunctions (reloadAllHogFunctions store mgr) teamId fg :=
  fun _ _ _ _ => ⟨rfl, rfl⟩

/-- C6: `processBatch` returns exactly the invocations created during the
batch — one per matching function per event, in their freshly-created
state — independent of the wall clock at which their first steps ran (so
independent of any suspended step's later completion): the batch never
waits on suspended invocations. -/
theorem C6_processBatch_returns_created_invocations :
    ∀ (mgr : HogFunctionManager) (now : Nat) (events : List HogFunctionInvocationGlobals),
      (processBatch mgr now events).1 =
        events.flatMap (fun g =>
          (matchFunctions mgr g.project.id (convertToHogFunctionFilterGlobal g)).map
            (fun f => createInvocation f g)) ∧
      (∀ now2 : Nat, (processBatch mgr now events).1 = (processBatch mgr now2 events).1) ∧
      (processBatch mgr now events).1.length =
        (events.map (fun g =>
          (matchFunctions mgr g.project.id (convertToHogFunctionFilterGlobal g)).length)).sum := by
  intro mgr now events
  refine ⟨rfl, fun _ => rfl, ?_⟩
  simp [processBatch, processEvent, Function.comp_def, List.length_map]

theorem runRel_of_runOps : ∀ (ops : List Op) (acc : List String), RunRel ops acc (runOps ops acc) := by
  intro ops
  induction ops with
  | nil => intro acc; exact RunRel.nil acc
  | cons op rest ih =>
      intro acc
      cases op with
      | log m => exact RunRel.log m rest acc _ (ih (acc ++ [m]))
      | fetch req => exact RunRel.fetch req rest acc

theorem runRel_det : ∀ {ops acc o1}, RunRel ops acc o1 → ∀ {o2}, RunRel ops acc o2 → o1 = o2 := by
  intro ops acc o1 h1
  induction h1 with
  | nil acc => intro o2 h2; cases h2; rfl
  | log m rest acc out _ ih => intro o2 h2; cases h2 with | log _ _ _ _ h => exact ih h
  | fetch req rest acc => intro o2 h2; cases h2; rfl

theorem stepRel_of_step : ∀ (inv : Invocation) (now : Nat), StepRel inv now (step inv now) := by
  intro inv now
  have h := runRel_of_runOps (progOf inv) (startLogsOf inv)
  unfold step
  cases hr : runOps (progOf inv) (startLogsOf inv) with
  | mk logs susp =>
      rw [hr] at h
      cases susp with
      | none => exact StepRel.finish inv now logs h
      | some p => exact StepRel.suspend inv now logs p.1 p.2 h

/-- C7: stepping the same invocation twice with identical globals (carried
inside the invocation) and identical external-call results (carried in the
resumed execution state) yields identical logs and metrics: the step
relation is deterministic, and the interpreter `step` realizes it. -/
theorem C7_step_deterministic :
    (∀ (inv : Invocation) (now : Nat), StepRel inv now (step inv now)) ∧
    (∀ (inv : Invocation) (now : Nat) (r1 r2 : InvocationResult),
      StepRel inv now r1 → StepRel inv now r2 →
      r1.logs = r2.logs ∧ r1.metrics = r2.metrics ∧ r1 = r2) := by
  refine ⟨stepRel_of_step, ?_⟩
  intro inv now r1 r2 h1 h2
  cases h1 with
  | suspend logs1 req1 rest1 hr1 =>
      cases h2 with
      | suspend logs2 req2 rest2 hr2 =>
          have he := runRel_det hr1 hr2
          simp only [Prod.mk.injEq, Option.some.injEq] at he
          obtain ⟨hl, hreq, hrest⟩ := he
          subst hl; subst hreq; subst hrest
          exact ⟨rfl, rfl, rfl⟩
      | finish logs2 hr2 =>
          have he := runRel_det hr1 hr2
          simp at he
  | finish logs1 hr1 =>
      cases h2 with
      | suspend logs2 req2 rest2 hr2 =>
          have he := runRel_det hr1 hr2
          simp at he
      | finish logs2 hr2 =>
          have he := runRel_det hr1 hr2
          simp only [Prod.mk.injEq] at he
          obtain ⟨hl, -⟩ := he
          subst hl
          exact ⟨rfl, rfl, rfl⟩

/-- Witness for C7 at a concrete invocation: the two hypothesized step
derivations exist (both produced by the interpreter), and the conclusion
holds there. -/
theorem C7_witness :
    ((step (createInvocation fnFetchNoFilters exampleGlobals) 100).logs =
      (step (createInvocation fnFetchNoFilters exampleGlobals) 100).logs ∧
     (step (createInvocation fnFetchNoFilters exampleGlobals) 100).metrics =
      (step (createInvocation fnFetchNoFilters exampleGlobals) 100).metrics ∧
     step (createInvocation fnFetchNoFilters exampleGlobals) 100 =
      step (createInvocation fnFetchNoFilters exampleGlobals) 100) :=
  C7_step_deterministic.2 (createInvocation fnFetchNoFilters exampleGlobals) 100 _ _
    (C7_step_deterministic.1 (createInvocation fnFetchNoFilters exampleGlobals) 100)
    (C7_step_deterministic.1 (createInvocation fnFetchNoFilters exampleGlobals) 100)

theorem decodeStr_encodeStr (s : String) (rest : List Nat) :
    decodeStr (encodeStr s ++ rest) = some (s, rest) := by
  have hlen : (s.data.map Char.toNat).length = s.data.length := List.length_map _ _
  simp only [encodeStr, decodeStr, List.cons_append]
  rw [if_pos (by simp)]
  rw [List.take_left' hlen, List.drop_left' hlen]
  simp [List.map_map, Function.comp_def]

theorem decodeInt_encodeInt (i : Int) (rest : List Nat) :
    decodeInt (encodeInt i ++ rest) = some (i, rest) := by
  cases i <;> simp [encodeInt, decodeInt]

theorem encodeJson_length_pos (v : Json) : 1 ≤ (encodeJson v).length := by
  cases v with
  | null => simp [encodeJson]
  | bool b => cases b <;> simp [encodeJson]
  | num i => simp [encodeJson]
  | str s => simp [encodeJson]
  | arr xs => simp [encodeJson]
  | obj kvs => simp [encodeJson]

theorem mem_encodeJsonList_le {x : Json} :
    ∀ {xs : List Json}, x ∈ xs → (encodeJson x).length ≤ (encodeJsonList xs).length := by
  intro xs hmem
  induction xs with
  | nil => cases hmem
  | cons y ys ih =>
      simp only [encodeJsonList, List.length_append]
      rcases List.mem_cons.mp hmem with h | h
      · subst h; omega
      · have := ih h; omega

theorem mem_encodeJsonObj_le {kv : String × Json} :
    ∀ {kvs : List (String × Json)}, kv ∈ kvs →
      (encodeJson kv.2).length ≤ (encodeJsonObj kvs).length := by
  intro kvs hmem
  induction kvs with
  | nil => cases hmem
  | cons p ps ih =>
      simp only [encodeJsonObj, List.length_append]
      rcases List.mem_cons.mp hmem with h | h
      · subst h; omega
      · have := ih h; omega

theorem decodeJsonList_encodeJsonList (fuel : Nat) (xs : List Json)
    (hx : ∀ x ∈ xs, ∀ r : List Nat, decodeJson fuel (encodeJson x ++ r) = some (x, r)) :
    ∀ rest : List Nat, decodeJsonList fuel xs.length (encodeJsonList xs ++ rest) = some (xs, rest) := by
  induction xs with
  | nil => intro rest; simp [encodeJsonList, decodeJsonList]
  | cons x xs ih =>
      intro rest
      simp only [encodeJsonList, List.length_cons, List.append_assoc]
      rw [decodeJsonList]
      rw [hx x (List.mem_cons_self x xs) (encodeJsonList xs ++ rest)]
      dsimp only
      rw [ih (fun y hy r => hx y (List.mem_cons_of_mem x hy) r) rest]

theorem decodeJsonObj_encodeJsonObj (fuel : Nat) (kvs : List (String × Json))
    (hx : ∀ kv ∈ kvs, ∀ r : List Nat, decodeJson fuel (encodeJson kv.2 ++ r) = some (kv.2, r)) :
    ∀ rest : List Nat, decodeJsonObj fuel kvs.length (encodeJsonObj kvs ++ rest) = some (kvs, rest) := by
  induction kvs with
  | nil => intro rest; simp [encodeJsonObj, decodeJsonObj]
  | cons kv kvs ih =>
      intro rest
      simp only [encodeJsonObj, List.length_cons, List.append_assoc]
      rw [decodeJsonObj]
      rw [decodeStr_encodeStr kv.1 (encodeJson kv.2 ++ (encodeJsonObj kvs ++ rest))]
      dsimp only
      rw [hx kv (List.mem_cons_self kv kvs) (encodeJsonObj kvs ++ rest)]
      dsimp only
      rw [ih (fun p hp r => hx p (List.mem_cons_of_mem kv hp) r) rest]

theorem decodeJson_encodeJson :
    ∀ fuel : Nat, ∀ (v : Json) (rest : List Nat), (encodeJson v).length ≤ fuel →
      decodeJson fuel (encodeJson v ++ rest) = some (v, rest) := by
  intro fuel
  induction fuel with
  | zero =>
      intro v rest h
      exact absurd (Nat.le_trans (encodeJson_length_pos v) h) (by omega)
  | succ fuel ih =>
      intro v rest h
      cases v with
      | null => simp [encodeJson, decodeJson]
      | bool b => cases b <;> simp [encodeJson, decodeJson]
      | num i =>
          simp only [encodeJson, List.cons_append, decodeJson]
          rw [decodeInt_encodeInt]
          rfl
      | str s =>
          simp only [encodeJson, List.cons_append, decodeJson]
          rw [decodeStr_encodeStr]
          rfl
      | arr xs =>
          have hlen : (encodeJsonList xs).length ≤ fuel := by
            simp only [encodeJson, List.length_cons] at h; omega
          have hx : ∀ x ∈ xs, ∀ r : List Nat,
              decodeJson fuel (encodeJson x ++ r) = some (x, r) :=
            fun x hmem r => ih x r (Nat.le_trans (mem_encodeJsonList_le hmem) hlen)
          simp only [encodeJson, List.cons_append, decodeJson]
          rw [decodeJsonList_encodeJsonList fuel xs hx rest]
          rfl
      | obj kvs =>
          have hlen : (encodeJsonObj kvs).length ≤ fuel := by
            simp only [encodeJson, List.length_cons] at h; omega
          have hx : ∀ kv ∈ kvs, ∀ r : List Nat,
              decodeJson fuel (encodeJson kv.2 ++ r) = some (kv.2, r) :=
            fun kv hmem r => ih kv.2 r (Nat.le_trans (mem_encodeJsonObj_le hmem) hlen)
          simp only [encodeJson, List.cons_append, decodeJson]
          rw [decodeJsonObj_encodeJsonObj fuel kvs hx rest]
          rfl

/-- C3: the Serialization Codec round-trips — for every JSON-representable
value, `unGzipObject (gzipObject v)` succeeds and returns exactly `v` (so in
particular a value equal to `v`). -/
theorem C3_codec_round_trip : ∀ v : Json, unGzipObject (gzipObject v) = some v := by
  intro v
  have h := decodeJson_encodeJson ((encodeJson v).length + 1) v [] (by omega)
  rw [List.append_nil] at h
  simp only [gzipObject, unGzipObject]
  rw [h]

theorem fromDigits_append_digit (l : List Nat) (d : Nat) :
    fromDigits (l ++ [d]) = fromDigits l * 10 + d := by
  simp [fromDigits, List.foldl_append]

theorem fromDigits_decimalDigitsAux :
    ∀ fuel n : Nat, n < fuel → fromDigits (decimalDigitsAux fuel n) = n := by
  intro fuel
  induction fuel with
  | zero => intro n h; omega
  | succ fuel ih =>
      intro n h
      by_cases h10 : n < 10
      · simp [decimalDigitsAux, h10, fromDigits]
      · have hdiv : n / 10 < fuel := by omega
        simp only [decimalDigitsAux, if_neg h10]
        rw [fromDigits_append_digit, ih _ hdiv]
        omega

theorem fromDigits_decimalDigits (n : Nat) : fromDigits (decimalDigits n) = n :=
  fromDigits_decimalDigitsAux (n + 1) n (by omega)

theorem decimalDigitsAux_lt :
    ∀ fuel n d : Nat, d ∈ decimalDigitsAux fuel n → d < 10 := by
  intro fuel
  induction fuel with
  | zero => intro n d h; simp [decimalDigitsAux] at h
  | succ fuel ih =>
      intro n d h
      by_cases h10 : n < 10
      · simp [decimalDigitsAux, h10] at h; omega
      · simp only [decimalDigitsAux, if_neg h10, List.mem_append, List.mem_singleton] at h
        rcases h with h | h
        · exact ih _ _ h
        · omega

theorem digitChar_toNat {d : Nat} (h : d < 10) : (digitChar d).toNat = 48 + d := by
  interval_cases d <;> decide

theorem digits_recover :
    ∀ l : List Nat, (∀ d ∈ l, d < 10) →
      (l.map digitChar).map (fun c => c.toNat - 48) = l := by
  intro l
  induction l with
  | nil => intro _; rfl
  | cons d ds ih =>
      intro hl
      simp only [List.map_cons, List.cons.injEq]
      refine ⟨?_, ih (fun x hx => hl x (List.mem_cons_of_mem _ hx))⟩
      rw [digitChar_toNat (hl d (List.mem_cons_self _ _))]
      omega

theorem toDecimal_injective (a b : Nat) (h : toDecimal a = toDecimal b) : a = b := by
  have hdata := congrArg String.data h
  simp only [toDecimal] at hdata
  have ha := digits_recover (decimalDigits a) (fun d hd => decimalDigitsAux_lt _ _ _ hd)
  have hb := digits_recover (decimalDigits b) (fun d hd => decimalDigitsAux_lt _ _ _ hd)
  have hdig : decimalDigits a = decimalDigits b := by
    rw [← ha, ← hb, hdata]
  calc a = fromDigits (decimalDigits a) := (fromDigits_decimalDigits a).symm
    _ = fromDigits (decimalDigits b) := by rw [hdig]
    _ = b := fromDigits_decimalDigits b

theorem posKey_injective (a b : Nat) (h : posKey a = posKey b) : a = b := by
  apply toDecimal_injective
  have hdata := congrArg String.data h
  simp only [posKey, String.data_append] at hdata
  exact String.ext (List.append_cancel_left hdata)

theorem lookup_eq_some_of_nodup {β : Type} (l : List (String × β)) (k : String) (v : β)
    (hnd : (l.map Prod.fst).Nodup) (hmem : (k, v) ∈ l) : l.lookup k = some v := by
  induction l with
  | nil => cases hmem
  | cons p ps ih =>
      obtain ⟨pk, pv⟩ := p
      simp only [List.map_cons, List.nodup_cons] at hnd
      rcases List.mem_cons.mp hmem with h | h
      · injection h with h1 h2
        subst h1; subst h2
        simp [List.lookup_cons]
      · have hk : k ≠ pk := by
          intro he
          subst he
          exact hnd.1 (List.mem_map_of_mem Prod.fst h)
        have hb : (k == pk) = false := beq_eq_false_iff_ne.mpr hk
        simp only [List.lookup_cons, hb]
        exact ih hnd.2 h

theorem buildGroupTable_mem :
    ∀ (gs : List (String × Group)) (n i : Nat) (tn : String) (g : Group),
      gs[i]? = some (tn, g) →
      (posKey g.index, n + i) ∈ buildGroupTable n gs ∧
      (tn, n + i) ∈ buildGroupTable n gs := by
  intro gs
  induction gs with
  | nil => intro n i tn g h; simp at h
  | cons p ps ih =>
      intro n i tn g h
      obtain ⟨ptn, pg⟩ := p
      cases i with
      | zero =>
          simp only [List.getElem?_cons_zero, Option.some.injEq] at h
          injection h with h1 h2
          subst h1; subst h2
          constructor <;> simp [buildGroupTable]
      | succ j =>
          have h' : ps[j]? = some (tn, g) := by simpa using h
          have hj := ih (n + 1) j tn g h'
          have e : n + (j + 1) = (n + 1) + j := by omega
          constructor
          · simp only [buildGroupTable, List.mem_cons]
            right; right; rw [e]; exact hj.1
          · simp only [buildGroupTable, List.mem_cons]
            right; right; rw [e]; exact hj.2

theorem buildGroupTable_lookup_none :
    ∀ (gs : List (String × Group)) (m : Nat) (k : String),
      (∀ p ∈ gs, k ≠ posKey p.2.index ∧ k ≠ p.1) →
      (buildGroupTable m gs).lookup k = none := by
  intro gs
  induction gs with
  | nil => intro m k _; rfl
  | cons p ps ih =>
      intro m k h
      obtain ⟨ptn, pg⟩ := p
      have h0 := h (ptn, pg) (List.mem_cons_self _ _)
      have b1 : (k == posKey pg.index) = false := beq_eq_false_iff_ne.mpr h0.1
      have b2 : (k == ptn) = false := beq_eq_false_iff_ne.mpr h0.2
      simp only [buildGroupTable, List.lookup_cons, b1, b2]
      exact ih (m + 1) k (fun q hq => h q (List.mem_cons_of_mem _ hq))

/-- C4: for every group present in the globals (under collision-free record
keys), the projected record binds the positional key `group_<index>` to a
store slot holding exactly `{key: group.id, index: group.index, properties:
group.properties}`, and binds the group's type name to the very same slot —
the alias is the identical record, not a copy. -/
theorem C4_group_positional_and_alias :
    ∀ (g : HogFunctionInvocationGlobals),
      ((convertToHogFunctionFilterGlobal g).groupTable.map Prod.fst).Nodup →
      ∀ (tn : String) (gr : Group), (tn, gr) ∈ g.groups →
        ∃ i : Nat,
          (convertToHogFunctionFilterGlobal g).groupTable.lookup (posKey gr.index) = some i ∧
          (convertToHogFunctionFilterGlobal g).groupTable.lookup tn = some i ∧
          (convertToHogFunctionFilterGlobal g).groupStore[i]? = some (projectGroup gr) ∧
          lookupGroup (convertToHogFunctionFilterGlobal g) (posKey gr.index) =
            some (projectGroup gr) ∧
          lookupGroup (convertToHogFunctionFilterGlobal g) tn = some (projectGroup gr) ∧
          projectGroup gr =
            [("key", GVal.str gr.id), ("index", GVal.num gr.index),
             ("properties", GVal.props gr.properties)] := by
  intro g hnd tn gr hmem
  obtain ⟨i, hi⟩ := List.getElem?_of_mem hmem
  have hmem2 := buildGroupTable_mem g.groups 0 i tn gr hi
  rw [Nat.zero_add] at hmem2
  have hl1 : (convertToHogFunctionFilterGlobal g).groupTable.lookup (posKey gr.index) = some i :=
    lookup_eq_some_of_nodup _ _ _ hnd hmem2.1
  have hl2 : (convertToHogFunctionFilterGlobal g).groupTable.lookup tn = some i :=
    lookup_eq_some_of_nodup _ _ _ hnd hmem2.2
  have hstore : (convertToHogFunctionFilterGlobal g).groupStore[i]? = some (projectGroup gr) := by
    simp only [convertToHogFunctionFilterGlobal]
    rw [List.getElem?_map, hi]
    rfl
  exact ⟨i, hl1, hl2, hstore,
    by simp [lookupGroup, hl1, hstore],
    by simp [lookupGroup, hl2, hstore], rfl⟩

/-- Witness for C4 at the projector test's globals: the organization group
(index 0) is reachable under `group_0` and under `organization`, both
resolving to the same store slot. -/
theorem C4_witness :
    ∃ i : Nat,
      (convertToHogFunctionFilterGlobal exampleGroupGlobals).groupTable.lookup
        (posKey orgGroup.index) = some i ∧
      (convertToHogFunctionFilterGlobal exampleGroupGlobals).groupTable.lookup
        "organization" = some i ∧
      (convertToHogFunctionFilterGlobal exampleGroupGlobals).groupStore[i]? =
        some (projectGroup orgGroup) ∧
      lookupGroup (convertToHogFunctionFilterGlobal exampleGroupGlobals)
        (posKey orgGroup.index) = some (projectGroup orgGroup) ∧
      lookupGroup (convertToHogFunctionFilterGlobal exampleGroupGlobals)
        "organization" = some (projectGroup orgGroup) ∧
      projectGroup orgGroup =
        [("key", GVal.str orgGroup.id), ("index", GVal.num orgGroup.index),
         ("properties", GVal.props orgGroup.properties)] :=
  C4_group_positional_and_alias exampleGroupGlobals (by decide) "organization" orgGroup
    (List.mem_cons_self _ _)

/-- C10: every record in the projected group store carries exactly the
fields `key`, `index` and `properties`; the group's `type` and `url` are
dropped, so a filter reference to them resolves to nothing. -/
theorem C10_projected_record_fields :
    ∀ (g : HogFunctionInvocationGlobals) (r : List (String × GVal)),
      r ∈ (convertToHogFunctionFilterGlobal g).groupStore →
      (∃ p ∈ g.groups, r = projectGroup p.2) ∧
      r.map Prod.fst = ["key", "index", "properties"] ∧
      r.lookup "type" = none ∧ r.lookup "url" = none := by
  intro g r hr
  simp only [convertToHogFunctionFilterGlobal] at hr
  obtain ⟨p, hp, rfl⟩ := List.mem_map.mp hr
  exact ⟨⟨p, hp, rfl⟩, rfl, rfl, rfl⟩

/-- Witness for C10 at the projector test's organization group: its
projected record has exactly the keys `key`, `index`, `properties` and
resolves neither `type` nor `url`. -/
theorem C10_witness :
    (∃ p ∈ exampleGroupGlobals.groups, projectGroup orgGroup = projectGroup p.2) ∧
    (projectGroup orgGroup).map Prod.fst = ["key", "index", "properties"] ∧
    (projectGroup orgGroup).lookup "type" = none ∧
    (projectGroup orgGroup).lookup "url" = none :=
  C10_projected_record_fields exampleGroupGlobals (projectGroup orgGroup)
    (List.mem_cons_self _ _)

/-- Counterexample to C5 as stated: in `aliasCollisionGlobals` no group has
positional index 1, yet the projected record does contain the key
`group_1`, because one group's type name is literally `group_1` and the
alias entry is keyed by the raw type name. -/
theorem C5_counterexample :
    (∀ p ∈ aliasCollisionGlobals.groups, p.2.index ≠ 1) ∧
    posKey 1 = "group_1" ∧
    lookupGroup (convertToHogFunctionFilterGlobal aliasCollisionGlobals) (posKey 1) =
      some (projectGroup aliasCollisionGroup) := by
  refine ⟨?_, rfl, rfl⟩
  intro p hp
  rcases List.mem_cons.mp hp with h | h
  · subst h; decide
  · cases h

/-- C5 (amended): the projector maps each present group independently —
the store is the independent image of the groups — and for every index `n`
carried by no group, the projected record contains no `group_n` key,
provided additionally that no group's type name is itself the literal
string `group_n` (the alias entry uses the raw type name, so such a name
would collide with the positional key space). -/
theorem C5_no_absent_positional_key :
    ∀ (g : HogFunctionInvocationGlobals) (n : Nat),
      (∀ p ∈ g.groups, p.2.index ≠ n) →
      (∀ p ∈ g.groups, p.1 ≠ posKey n) →
      (convertToHogFunctionFilterGlobal g).groupTable.lookup (posKey n) = none ∧
      lookupGroup (convertToHogFunctionFilterGlobal g) (posKey n) = none ∧
      (convertToHogFunctionFilterGlobal g).groupStore =
        g.groups.map (fun p => projectGroup p.2) := by
  intro g n hidx htn
  have hl : (buildGroupTable 0 g.groups).lookup (posKey n) = none :=
    buildGroupTable_lookup_none g.groups 0 (posKey n) (fun p hp =>
      ⟨fun he => hidx p hp (posKey_injective n p.2.index he).symm,
       fun he => htn p hp he.symm⟩)
  refine ⟨hl, ?_, rfl⟩
  simp [lookupGroup, convertToHogFunctionFilterGlobal, hl]

/-- Witness for C5 at globals with the non-contiguous indices 3 and 7: the
absent index 5 yields no `group_5` key. -/
theorem C5_witness :
    (convertToHogFunctionFilterGlobal sparseGroupGlobals).groupTable.lookup (posKey 5) = none ∧
    lookupGroup (convertToHogFunctionFilterGlobal sparseGroupGlobals) (posKey 5) = none ∧
    (convertToHogFunctionFilterGlobal sparseGroupGlobals).groupStore =
      sparseGroupGlobals.groups.map (fun p => projectGroup p.2) := by
  apply C5_no_absent_positional_key sparseGroupGlobals 5
  · intro p hp
    rcases List.mem_cons.mp hp with h | h
    · subst h; decide
    · rcases List.mem_cons.mp h with h2 | h2
      · subst h2; decide
      · cases h2
  · intro p hp
    rcases List.mem_cons.mp hp with h | h
    · subst h; decide
    · rcases List.mem_cons.mp h with h2 | h2
      · subst h2; decide
      · cases h2

/-- C9: the sink's tie-break unit is exactly one millisecond — a colliding
entry is assigned `previous + 1` ms — and every prepared record's timestamp
is the ClickHouse-style `YYYY-MM-DD hh:mm:ss.mmm` serialization (zero-padded
fields, in-range time components, millisecond field `ms % 1000`) of its
assigned millisecond timestamp; on the test batch the serialized timestamps
are `2021-05-03 00:00:00.000` through `.003`. -/
theorem C9_tiebreak_millisecond_and_format :
    (∀ (prev : Nat) (e : LogEntry) (es : List LogEntry),
      e.timestamp ≤ prev →
      fixTimestamps (some prev) (e :: es) =
        { e with timestamp := prev + 1 } :: fixTimestamps (some (prev + 1)) es) ∧
    (∀ r : InvocationResult,
      (prepareLogEntriesForClickhouse r).map (fun s => s.timestamp) =
        (assignTimestamps r.logs).map (fun e => formatClickhouseTimestamp e.timestamp)) ∧
    (∀ ms : Nat, ∃ Y M D hh mm ss mmm : Nat,
      hh < 24 ∧ mm < 60 ∧ ss < 60 ∧ mmm < 1000 ∧ mmm = ms % 1000 ∧
      formatClickhouseTimestamp ms =
        zeroPad 4 Y ++ "-" ++ zeroPad 2 M ++ "-" ++ zeroPad 2 D ++ " " ++
        zeroPad 2 hh ++ ":" ++ zeroPad 2 mm ++ ":" ++ zeroPad 2 ss ++ "." ++ zeroPad 3 mmm) ∧
    prepareLogEntriesForClickhouse exampleLogResult =
      [{ team_id := 1, log_source := "hog_function", log_source_id := "hog-1",
         instance_id := "inv-1", level := "info", message := "First log message",
         timestamp := "2021-05-03 00:00:00.000" },
       { team_id := 1, log_source := "hog_function", log_source_id := "hog-1",
         instance_id := "inv-1", level := "info", message := "Second log message",
         timestamp := "2021-05-03 00:00:00.001" },
       { team_id := 1, log_source := "hog_function", log_source_id := "hog-1",
         instance_id := "inv-1", level := "info", message := "Third log message",
         timestamp := "2021-05-03 00:00:00.002" },
       { team_id := 1, log_source := "hog_function", log_source_id := "hog-1",
         instance_id := "inv-1", level := "info", message := "Duplicate log message",
         timestamp := "2021-05-03 00:00:00.003" }] := by
  refine ⟨?_, ?_, ?_, ?_⟩
  · intro prev e es h
    simp only [fixTimestamps]
    rw [Nat.max_eq_right (by omega)]
  · intro r
    simp [prepareLogEntriesForClickhouse, List.map_map, Function.comp_def]
  · intro ms
    exact ⟨(civilFromDays (ms / 1000 / 86400)).1, (civilFromDays (ms / 1000 / 86400)).2.1,
      (civilFromDays (ms / 1000 / 86400)).2.2, ms / 1000 % 86400 / 3600,
      ms / 1000 % 86400 % 3600 / 60, ms / 1000 % 86400 % 60, ms % 1000,
      by omega, by omega, by omega, by omega, rfl, rfl⟩
  · rfl

/-- Witness for C9 at a concrete collision: an entry whose original
timestamp equals the previously assigned one is bumped by exactly one
millisecond. -/
theorem C9_witness :
    fixTimestamps (some 1620000000002) [⟨"info", "Duplicate log message", 1620000000002⟩] =
      [⟨"info", "Duplicate log message", 1620000000003⟩] := by
  have h := C9_tiebreak_millisecond_and_format.1 1620000000002
    ⟨"info", "Duplicate log message", 1620000000002⟩ [] (Nat.le_refl 1620000000002)
  simpa using h

end CdpEngine
